import Mathlib

/-
  Verification of core algorithms of the OCT-Converter repository
  (readers for vendor-proprietary ophthalmic imaging containers).

  The development shallowly embeds the relevant Python source into Lean:

  * `E2E.uint16_to_ufloat16`, `E2E.read_custom_float` and the decode LUT of
    `oct_converter/readers/e2e.py` become functions on `Nat` returning `ℚ`.
    The Python original computes with IEEE doubles, but every operation it
    performs on this data is exact there as well (the mantissa factor has
    11 significant bits and is scaled by a power of two within range), so
    the rational-valued embedding computes the same numbers.
  * the E2E volume-assembly pass (`E2E.read_oct_volume`) becomes an explicit
    fold over the parsed chunk stream with Python list/dict semantics made
    explicit (insertion-ordered association lists, negative-index wrap,
    IndexError on out-of-range list assignment).
  * the FDS chunk-catalog scan (`fds.py, get_list_of_file_chunks`) becomes a
    fuel-indexed byte-level scanner.
  * the BOCT shape computation (`boct.py, read_oct_volume`) becomes a pure
    function of the header fields.
-/

namespace OCT

namespace E2E

/-- `bin(b)[2:].zfill(8)`: the 8-character big-endian bit string of a byte,
most significant bit first. -/
def bits8 (b : Nat) : List Bool :=
  [b.testBit 7, b.testBit 6, b.testBit 5, b.testBit 4,
   b.testBit 3, b.testBit 2, b.testBit 1, b.testBit 0]

/-- `"{0:016b}".format(x)`: the 16-character big-endian bit string of a
16-bit value, most significant bit first. -/
def bin16 (x : Nat) : List Bool :=
  [x.testBit 15, x.testBit 14, x.testBit 13, x.testBit 12,
   x.testBit 11, x.testBit 10, x.testBit 9, x.testBit 8,
   x.testBit 7, x.testBit 6, x.testBit 5, x.testBit 4,
   x.testBit 3, x.testBit 2, x.testBit 1, x.testBit 0]

/-- `int(s, 2)`: read a bit string most-significant-bit first. -/
def bitsToNat (l : List Bool) : Nat :=
  l.foldl (fun acc b => 2 * acc + b.toNat) 0

/-- `self.power = pow(2, 10)` (e2e.py line 100). -/
def power : Nat := 2 ^ 10

/-- Common tail of `read_custom_float` and `uint16_to_ufloat16`
(e2e.py lines 440-447 and 462-471): split the 16 bits into a 10-bit
mantissa field and a 6-bit exponent field (the latter read in reverse),
and form `(1 + mantissa/2^10) * 2^(exponent - 63)`. -/
def ufloatOfBits (bits : List Bool) : ℚ :=
  let mantissa := bits.take 10
  let exponent := (bits.drop 10).reverse
  let mantissa_sum : ℚ := 1 + (bitsToNat mantissa : ℚ) / (power : ℚ)
  let exponent_sum : ℤ := (bitsToNat exponent : ℤ) - 63
  mantissa_sum * (2 : ℚ) ^ exponent_sum

/-- `E2E.uint16_to_ufloat16` (e2e.py lines 449-471):
`bits = "{0:016b}".format(uint16)[::-1]`, then decode. -/
def uint16_to_ufloat16 (x : Nat) : ℚ :=
  ufloatOfBits (bin16 x).reverse

/-- `E2E.read_custom_float` (e2e.py lines 424-447):
`bits = bin(bytes[0])[2:].zfill(8)[::-1] + bin(bytes[1])[2:].zfill(8)[::-1]`,
then decode. -/
def read_custom_float (b0 b1 : Nat) : ℚ :=
  ufloatOfBits ((bits8 b0).reverse ++ (bits8 b1).reverse)

/-- `_make_lut` (e2e.py lines 112-118): the 65,536-entry decode table
`[uint16_to_ufloat16 i for i in range(2**16)]`. -/
def makeLUT : List ℚ :=
  (List.range (2 ^ 16)).map uint16_to_ufloat16

/-- The 16-bit string of the spec's/claim's wording: bit-reverse each of the
two little-endian source bytes independently and concatenate low byte
first. -/
def specBits16 (x : Nat) : List Bool :=
  (bits8 (x % 256)).reverse ++ (bits8 (x / 256)).reverse

/-- The claim's mantissa field: the unsigned value of the first 10 bits of
`specBits16`. -/
def specMantissa (x : Nat) : Nat :=
  bitsToNat ((specBits16 x).take 10)

/-- The claim's exponent field: the unsigned value of the remaining 6 bits
of `specBits16`, read again in reverse. -/
def specExponent (x : Nat) : Nat :=
  bitsToNat (((specBits16 x).drop 10).reverse)

lemma bin16_reverse (x : Nat) :
    (bin16 x).reverse =
      [x.testBit 0, x.testBit 1, x.testBit 2, x.testBit 3,
       x.testBit 4, x.testBit 5, x.testBit 6, x.testBit 7,
       x.testBit 8, x.testBit 9, x.testBit 10, x.testBit 11,
       x.testBit 12, x.testBit 13, x.testBit 14, x.testBit 15] := rfl

lemma specBits16_eq (x : Nat) :
    specBits16 x =
      [x.testBit 0, x.testBit 1, x.testBit 2, x.testBit 3,
       x.testBit 4, x.testBit 5, x.testBit 6, x.testBit 7,
       x.testBit 8, x.testBit 9, x.testBit 10, x.testBit 11,
       x.testBit 12, x.testBit 13, x.testBit 14, x.testBit 15] := by
  have hmod : ∀ i : Nat, i < 8 → (x % 256).testBit i = x.testBit i := by
    intro i hi
    have : (256 : Nat) = 2 ^ 8 := by norm_num
    rw [this, Nat.testBit_mod_two_pow]
    simp [hi]
  have hdiv : ∀ i : Nat, (x / 256).testBit i = x.testBit (8 + i) := by
    intro i
    have h256 : x / 256 = x >>> 8 := by
      rw [Nat.shiftRight_eq_div_pow]
    rw [h256, Nat.testBit_shiftRight]
  show ((bits8 (x % 256)).reverse ++ (bits8 (x / 256)).reverse) = _
  simp only [bits8, List.reverse_cons, List.reverse_nil, List.nil_append,
    List.cons_append, List.append_nil]
  rw [hmod 0 (by norm_num), hmod 1 (by norm_num), hmod 2 (by norm_num),
    hmod 3 (by norm_num), hmod 4 (by norm_num), hmod 5 (by norm_num),
    hmod 6 (by norm_num), hmod 7 (by norm_num),
    hdiv 0, hdiv 1, hdiv 2, hdiv 3, hdiv 4, hdiv 5, hdiv 6, hdiv 7]

/-- The two bit-string constructions agree: reversing the whole 16-bit
big-endian string is the same as reversing each little-endian byte and
concatenating low byte first. -/
lemma bin16_reverse_eq_specBits16 (x : Nat) :
    (bin16 x).reverse = specBits16 x := by
  rw [bin16_reverse, specBits16_eq]

/-- Indexing the precomputed table `LUT = np.array([uint16_to_ufloat16 i
for i in range(2**16)])` at a 16-bit value returns the per-call decode. -/
lemma makeLUT_get (x : Nat) (hx : x < 65536) :
    makeLUT[x]? = some (uint16_to_ufloat16 x) := by
  unfold makeLUT
  rw [List.getElem?_map,
    List.getElem?_range (show x < 2 ^ 16 by norm_num; exact hx)]
  rfl

end E2E

end OCT

/-- C1: for every unsigned 16-bit input `x`, `uint16_to_ufloat16 x` equals
`(1 + M/1024) * 2^(E - 63)`, where the 16-bit string is formed by
bit-reversing each of the two little-endian source bytes and concatenating
low byte first, `M` is the unsigned value of its first 10 bits, and `E` the
unsigned value of the remaining 6 bits read again in reverse. -/
theorem uint16_to_ufloat16_closed_form (x : Nat) (hx : x < 65536) :
    OCT.E2E.uint16_to_ufloat16 x =
      (1 + (OCT.E2E.specMantissa x : ℚ) / 1024) *
        (2 : ℚ) ^ ((OCT.E2E.specExponent x : ℤ) - 63) := by
  unfold OCT.E2E.uint16_to_ufloat16 OCT.E2E.ufloatOfBits
  rw [OCT.E2E.bin16_reverse_eq_specBits16]
  have hpow : ((OCT.E2E.power : ℚ)) = 1024 := by
    norm_num [OCT.E2E.power]
  rw [hpow]
  rfl

/-- Witness for C1 at the concrete input `x = 43707` (`0xAABB`). -/
theorem uint16_to_ufloat16_closed_form_witness :
    OCT.E2E.uint16_to_ufloat16 43707 =
      (1 + (OCT.E2E.specMantissa 43707 : ℚ) / 1024) *
        (2 : ℚ) ^ ((OCT.E2E.specExponent 43707 : ℤ) - 63) :=
  uint16_to_ufloat16_closed_form 43707 (by norm_num)

/-- C4: the precomputed 65,536-entry lookup table agrees with per-call
computation on every input: `LUT[x] = uint16_to_ufloat16 x =
read_custom_float b` where `b` is the two-byte little-endian encoding of
`x`. -/
theorem lut_eq_per_call (x : Nat) (hx : x < 65536) :
    OCT.E2E.makeLUT[x]? = some (OCT.E2E.uint16_to_ufloat16 x) ∧
      OCT.E2E.uint16_to_ufloat16 x =
        OCT.E2E.read_custom_float (x % 256) (x / 256) := by
  constructor
  · exact OCT.E2E.makeLUT_get x hx
  · show OCT.E2E.ufloatOfBits (OCT.E2E.bin16 x).reverse =
      OCT.E2E.ufloatOfBits ((OCT.E2E.bits8 (x % 256)).reverse ++
        (OCT.E2E.bits8 (x / 256)).reverse)
    rw [OCT.E2E.bin16_reverse_eq_specBits16]
    rfl

/-- Witness for C4 at the concrete input `x = 513` (`0x0201`, bytes 1, 2). -/
theorem lut_eq_per_call_witness :
    OCT.E2E.makeLUT[(513 : Nat)]? = some (OCT.E2E.uint16_to_ufloat16 513) ∧
      OCT.E2E.uint16_to_ufloat16 513 =
        OCT.E2E.read_custom_float (513 % 256) (513 / 256) :=
  lut_eq_per_call 513 (by norm_num)

namespace OCT

namespace E2E

lemma bitsToNat_aux_lt (l : List Bool) :
    ∀ acc : Nat,
      l.foldl (fun acc b => 2 * acc + b.toNat) acc < (acc + 1) * 2 ^ l.length := by
  induction l with
  | nil => intro acc; simp
  | cons b l ih =>
    intro acc
    have h1 := ih (2 * acc + b.toNat)
    have h2 : (2 * acc + b.toNat + 1) * 2 ^ l.length ≤
        (acc + 1) * 2 ^ (b :: l).length := by
      have hb : b.toNat ≤ 1 := Bool.toNat_le b
      have : (2 * acc + b.toNat + 1) ≤ 2 * (acc + 1) := by omega
      calc (2 * acc + b.toNat + 1) * 2 ^ l.length
          ≤ 2 * (acc + 1) * 2 ^ l.length :=
            Nat.mul_le_mul_right _ this
        _ = (acc + 1) * 2 ^ (l.length + 1) := by ring
        _ = (acc + 1) * 2 ^ (b :: l).length := by simp
    exact lt_of_lt_of_le h1 h2

/-- `int(s, 2)` of a bit string is below `2 ^ length`. -/
lemma bitsToNat_lt (l : List Bool) : bitsToNat l < 2 ^ l.length := by
  have := bitsToNat_aux_lt l 0
  simpa [bitsToNat] using this

lemma mantissa_field_lt (x : Nat) :
    bitsToNat ((bin16 x).reverse.take 10) < 1024 := by
  have h := bitsToNat_lt ((bin16 x).reverse.take 10)
  have hlen : ((bin16 x).reverse.take 10).length = 10 := rfl
  rw [hlen] at h
  norm_num at h
  exact h

lemma exponent_field_lt (x : Nat) :
    bitsToNat (((bin16 x).reverse.drop 10).reverse) < 64 := by
  have h := bitsToNat_lt (((bin16 x).reverse.drop 10).reverse)
  have hlen : (((bin16 x).reverse.drop 10).reverse).length = 6 := rfl
  rw [hlen] at h
  norm_num at h
  exact h

end E2E

end OCT

/-- C10: for every unsigned 16-bit input, the custom-float decode result is
strictly positive and, computed over exact rationals, lies in the closed
interval `[2^-63, 2047/1024]`. -/
theorem ufloat16_bounds (x : Nat) (hx : x < 65536) :
    0 < OCT.E2E.uint16_to_ufloat16 x ∧
      (2 : ℚ) ^ (-63 : ℤ) ≤ OCT.E2E.uint16_to_ufloat16 x ∧
      OCT.E2E.uint16_to_ufloat16 x ≤ 2047 / 1024 := by
  unfold OCT.E2E.uint16_to_ufloat16 OCT.E2E.ufloatOfBits
  set m : Nat := OCT.E2E.bitsToNat ((OCT.E2E.bin16 x).reverse.take 10) with hm
  set e : Nat :=
    OCT.E2E.bitsToNat (((OCT.E2E.bin16 x).reverse.drop 10).reverse) with he
  have hmlt : m < 1024 := OCT.E2E.mantissa_field_lt x
  have helt : e < 64 := OCT.E2E.exponent_field_lt x
  have hpow : ((OCT.E2E.power : ℚ)) = 1024 := by norm_num [OCT.E2E.power]
  rw [hpow]
  have hm0 : (0 : ℚ) ≤ (m : ℚ) / 1024 := by positivity
  have hm1 : (1 : ℚ) ≤ 1 + (m : ℚ) / 1024 := by linarith
  have hm2 : 1 + (m : ℚ) / 1024 ≤ 2047 / 1024 := by
    have : (m : ℚ) ≤ 1023 := by exact_mod_cast Nat.le_of_lt_succ hmlt
    linarith
  have hz0 : (0 : ℚ) < (2 : ℚ) ^ ((e : ℤ) - 63) :=
    zpow_pos (by norm_num) _
  have hzlow : (2 : ℚ) ^ (-63 : ℤ) ≤ (2 : ℚ) ^ ((e : ℤ) - 63) :=
    zpow_le_zpow_right₀ (by norm_num) (by omega)
  have hzhigh : (2 : ℚ) ^ ((e : ℤ) - 63) ≤ 1 :=
    zpow_le_one_of_nonpos₀ (by norm_num) (by omega)
  refine ⟨by positivity, ?_, ?_⟩
  · calc (2 : ℚ) ^ (-63 : ℤ) ≤ (2 : ℚ) ^ ((e : ℤ) - 63) := hzlow
      _ = 1 * (2 : ℚ) ^ ((e : ℤ) - 63) := by ring
      _ ≤ (1 + (m : ℚ) / 1024) * (2 : ℚ) ^ ((e : ℤ) - 63) := by
          exact mul_le_mul_of_nonneg_right hm1 hz0.le
  · calc (1 + (m : ℚ) / 1024) * (2 : ℚ) ^ ((e : ℤ) - 63)
        ≤ (2047 / 1024) * 1 := by
          exact mul_le_mul hm2 hzhigh hz0.le (by norm_num)
      _ = 2047 / 1024 := by ring

/-- Witness for C10 at the concrete input `x = 0` (decode gives `2^-63`). -/
theorem ufloat16_bounds_witness :
    0 < OCT.E2E.uint16_to_ufloat16 0 ∧
      (2 : ℚ) ^ (-63 : ℤ) ≤ OCT.E2E.uint16_to_ufloat16 0 ∧
      OCT.E2E.uint16_to_ufloat16 0 ≤ 2047 / 1024 :=
  ufloat16_bounds 0 (by norm_num)

namespace OCT

namespace E2E

/-- Composite volume key: `"{}_{}_{}".format(patient_id, study_id,
series_id)` (decimal components make the formatting injective, so the
string key is modelled by the triple itself). -/
structure VolKey where
  patient_id : Nat
  study_id : Nat
  series_id : Nat
deriving DecidableEq

/-- One 44-byte sub-directory record, restricted to the fields
`read_oct_volume` uses (e2e.py lines 46-59). -/
structure SubEntry where
  pos : Nat
  start : Nat
  size : Nat
  key : VolKey
  slice_id : Int
deriving DecidableEq

/-- Per-slice image payload: the declared dimensions and the LUT-decoded
pixel values (`LUT[raw_volume]`).  The subsequent pointwise intensity
transform `256 * pow(image, 1.0 / 2.4)` is a fixed real-valued bijection
applied to every entry; it is treated separately (`legacy_intensity`)
because its values are irrational. -/
structure ImgData where
  width : Nat
  height : Nat
  data : List ℚ
deriving DecidableEq

/-- Parsed content found at a queued chunk offset, as far as
`read_oct_volume` inspects it: type 9 (patient), type 11 (laterality) and
type 1073741824 with `ind = 1` (OCT image data) are modelled; every other
chunk type only feeds side-tables that the claims below never read, and
falls to `other`. -/
inductive Chunk where
  | patient (patient_id : Nat)
  | lat (code : Nat)
  | image (key : VolKey) (slice_id : Int) (ind : Nat)
      (width height : Nat) (pixels : List Nat)
  | other
deriving DecidableEq

inductive Laterality where
  | R
  | L
deriving DecidableEq

/-- Python dict assignment `d[k] = v` on an insertion-ordered dictionary:
an existing key keeps its position, a new key is appended. -/
def dictSet {α β : Type} [DecidableEq α] : List (α × β) → α → β → List (α × β)
  | [], k, v => [(k, v)]
  | (k', v') :: rest, k, v =>
    if k' = k then (k', v) :: rest else (k', v') :: dictSet rest k v

/-- Python dict lookup `d.get(k)`. -/
def dictFind? {α β : Type} [DecidableEq α] (d : List (α × β)) (k : α) :
    Option β :=
  (d.find? (fun p => p.1 = k)).map Prod.snd

/-- `d[k].append(v) if k in d else d[k] = [v]` (e2e.py lines 271-278). -/
def dictAppend {α β : Type} [DecidableEq α] :
    List (α × List β) → α → β → List (α × List β)
  | [], k, v => [(k, [v])]
  | (k', vs) :: rest, k, v =>
    if k' = k then (k', vs ++ [v]) :: rest
    else (k', vs) :: dictAppend rest k v

/-- Python `int(q)` on a float: truncation toward zero. -/
def pyInt (q : ℚ) : Int :=
  if 0 ≤ q then ⌊q⌋ else ⌈q⌉

/-- Python list assignment `l[i] = v`: a negative index wraps from the
end; an index out of range raises `IndexError` (`none`). -/
def pySet {α : Type} (l : List α) (i : Int) (v : α) : Option (List α) :=
  if 0 ≤ i ∧ i < (l.length : Int) then
    some (l.set i.toNat v)
  else if -(l.length : Int) ≤ i ∧ i < 0 then
    some (l.set ((l.length : Int) + i).toNat v)
  else
    none

/-- The pre-scan `volume_dict` fold (e2e.py lines 146-155): per composite
key, the running maximum of `slice_id / 2` (Python true division, exact as
a rational). -/
def buildVolumeDict (entries : List SubEntry) : List (VolKey × ℚ) :=
  entries.foldl
    (fun d e =>
      match dictFind? d e.key with
      | none => dictSet d e.key ((e.slice_id : ℚ) / 2)
      | some cur =>
        if (e.slice_id : ℚ) / 2 > cur then
          dictSet d e.key ((e.slice_id : ℚ) / 2)
        else d)
    []

/-- `chunk_stack` (e2e.py lines 157-158): the `(start, size)` pairs of the
sub-directory records with `start > pos`, in catalog order. -/
def chunkStack (entries : List SubEntry) : List (Nat × Nat) :=
  (entries.filter (fun e => e.pos < e.start)).map (fun e => (e.start, e.size))

/-- Slot-array allocation (e2e.py lines 167-170): for each key whose
pre-scan maximum is positive, `[0] * int(num_slices + 1)` integer
sentinels; a slot is `none` while it still holds the sentinel `0`. -/
def allocSlots (vd : List (VolKey × ℚ)) :
    List (VolKey × List (Option ImgData)) :=
  vd.foldl
    (fun d p =>
      if p.2 > 0 then
        dictSet d p.1 (List.replicate (pyInt (p.2 + 1)).toNat none)
      else d)
    []

/-- `LUT[raw_volume]`: pointwise decode of the raw 16-bit samples (by C4
the precomputed table agrees with `uint16_to_ufloat16` entrywise). -/
def decodeImage (pixels : List Nat) : List ℚ :=
  pixels.map uint16_to_ufloat16

/-- Mutable state of the chunk-processing loop of `read_oct_volume`. -/
structure AsmState where
  laterality : Option Laterality
  patient_id : Option Nat
  volume_array_dict : List (VolKey × List (Option ImgData))
  additional : List (VolKey × List ImgData)
  laterality_dict : List (VolKey × Laterality)
deriving DecidableEq

/-- Outcome of one loop iteration: continue, `break`, or an uncaught
exception (the `IndexError` of an out-of-range slot assignment). -/
inductive StepResult where
  | ok (s : AsmState)
  | brk (s : AsmState)
  | err
deriving DecidableEq

/-- One iteration of the chunk-processing loop (e2e.py lines 175-281). -/
def step (s : AsmState) (c : Chunk) : StepResult :=
  match c with
  | .patient pid => .ok { s with patient_id := some pid }
  | .lat code =>
      if code = 82 then .ok { s with laterality := some .R }
      else if code = 76 then .ok { s with laterality := some .L }
      else .ok s
  | .other => .ok s
  | .image key slice_id ind width height pixels =>
      if ind = 1 then
        let count := height * width
        if count = 0 then .brk s
        else if pixels.length ≠ width * height then
          -- `LUT[raw_volume].reshape(width, height)` raises; the except
          -- branch warns and the else branch is skipped
          .ok s
        else
          let image : ImgData := ⟨width, height, decodeImage pixels⟩
          let placed : Option AsmState :=
            match dictFind? s.volume_array_dict key with
            | some slots =>
              match pySet slots (pyInt ((slice_id : ℚ) / 2) - 1) (some image) with
              | some slots' =>
                some { s with
                  volume_array_dict := dictSet s.volume_array_dict key slots' }
              | none => none
            | none =>
              some { s with additional := dictAppend s.additional key image }
          match placed with
          | none => .err
          | some s' =>
            if s'.laterality.isSome ∧ (dictFind? s'.laterality_dict key).isNone
            then
              match s'.laterality with
              | some lr => .ok { s' with
                  laterality_dict := dictSet s'.laterality_dict key lr }
              | none => .ok s'
            else .ok s'
      else .ok s

/-- The chunk-processing loop; `none` is an uncaught exception escaping
`read_oct_volume`. -/
def runChunks : AsmState → List Chunk → Option AsmState
  | s, [] => some s
  | s, c :: rest =>
    match step s c with
    | .ok s' => runChunks s' rest
    | .brk s' => some s'
    | .err => none

/-- A returned `OCTVolumeWithMetaData`, restricted to the fields the
claims inspect.  Primary volumes keep their slot list as-is, integer
sentinels (`none`) included. -/
structure Volume where
  volume_id : VolKey
  slices : List (Option ImgData)
  laterality : Option Laterality
  patient_id : Option Nat
deriving DecidableEq

/-- The final loop (e2e.py lines 297-317) over
`chain(volume_array_dict.items(), volume_array_dict_additional.items())`:
a list whose first element is still the integer sentinel
(`isinstance(volume[0], int)`) is skipped whole; `volume[0]` on an empty
list would raise `IndexError` (`none`, unreachable for states produced by
`read_oct_volume`).  Constructing any `OCTVolumeWithMetaData` reads
`self.patient_id` (line 307), an attribute `__init__` never initializes
(lines 100-103 set only `sex`, `first_name`, `surname`), so if no type-9
patient chunk was decoded before the first non-skipped volume the loop
raises `AttributeError` (`none`); with all volumes skipped no read occurs
and the empty list is returned. -/
def collectVolumes (s : AsmState) :
    List (VolKey × List (Option ImgData)) → Option (List Volume)
  | [] => some []
  | (k, vol) :: rest =>
    match vol with
    | [] => none
    | v0 :: _ =>
      match collectVolumes s rest with
      | none => none
      | some vs =>
        if v0.isNone then some vs
        else
          match s.patient_id with
          | none => none
          | some pid =>
            some ({ volume_id := k, slices := vol,
                    laterality := dictFind? s.laterality_dict k,
                    patient_id := some pid } :: vs)

def finalize (s : AsmState) : Option (List Volume) :=
  collectVolumes s
    (s.volume_array_dict ++ s.additional.map (fun p => (p.1, p.2.map some)))

/-- `E2E.read_oct_volume` (e2e.py lines 105-317) after the two directory
passes: `entries` is the concatenation of the sub-directory records read
in pass 2 (in catalog order), and `fetch start size` the parsed content of
the chunk record found at offset `start` (pass 3 seeks to each queued
offset and re-parses).  `none` is an uncaught exception. -/
def read_oct_volume (entries : List SubEntry) (fetch : Nat → Nat → Chunk) :
    Option (List Volume) :=
  let vd := buildVolumeDict entries
  let s0 : AsmState :=
    { laterality := none, patient_id := none,
      volume_array_dict := allocSlots vd,
      additional := [], laterality_dict := [] }
  match runChunks s0 ((chunkStack entries).map (fun p => fetch p.1 p.2)) with
  | none => none
  | some s => finalize s

end E2E

end OCT

namespace OCT

namespace E2E

/-- Fixture keys for the three-volume assembly scenario of C2. -/
def keyA : VolKey := ⟨1, 1, 1⟩

def keyB : VolKey := ⟨1, 1, 2⟩

def keyC : VolKey := ⟨1, 1, 3⟩

/-- Sub-directory records of the C2 fixture: three composite keys whose
image chunks carry slice-ids {2,4,6}, {2,4}, {2}, each key's first image
chunk preceded by metadata chunks (patient or laterality). -/
def entriesC2 : List SubEntry :=
  [⟨0, 101, 60, keyA, 0⟩,
   ⟨0, 102, 60, keyA, 0⟩,
   ⟨0, 103, 60, keyA, 2⟩,
   ⟨0, 104, 60, keyA, 4⟩,
   ⟨0, 105, 60, keyA, 6⟩,
   ⟨0, 106, 60, keyB, 0⟩,
   ⟨0, 107, 60, keyB, 2⟩,
   ⟨0, 108, 60, keyB, 4⟩,
   ⟨0, 109, 60, keyC, 0⟩,
   ⟨0, 110, 60, keyC, 2⟩]

/-- Chunk contents found at the queued offsets of the C2 fixture. -/
def fetchC2 : Nat → Nat → Chunk := fun start _ =>
  if start = 101 then .patient 7
  else if start = 102 then .lat 82
  else if start = 103 then .image keyA 2 1 1 1 [5]
  else if start = 104 then .image keyA 4 1 1 1 [5]
  else if start = 105 then .image keyA 6 1 1 1 [5]
  else if start = 106 then .lat 76
  else if start = 107 then .image keyB 2 1 1 1 [5]
  else if start = 108 then .image keyB 4 1 1 1 [5]
  else if start = 109 then .lat 82
  else if start = 110 then .image keyC 2 1 1 1 [5]
  else .other

/-- The decoded 1-by-1 test slice used throughout the fixtures. -/
def imgQ : ImgData := ⟨1, 1, decodeImage [5]⟩

end E2E

end OCT

section

attribute [local semireducible] Rat.add Rat.mul Rat.inv

set_option maxRecDepth 100000

/-- C2 counterexample: on the claimed fixture (slice-ids {2,4,6}, {2,4},
{2}), assembly returns 3 volumes of lengths 4, 3 and 2 — the slot arrays
are sized `max/2 + 1` and their remaining integer sentinels are NOT
dropped — whereas the claim asserts lengths 3, 2, 1. -/
theorem e2e_sentinel_filter_counterexample :
    (OCT.E2E.read_oct_volume OCT.E2E.entriesC2 OCT.E2E.fetchC2).map
        (fun vs => vs.map (fun v => v.slices.length)) = some [4, 3, 2] ∧
      ([4, 3, 2] : List Nat) ≠ [3, 2, 1] := by
  constructor
  · decide
  · decide

/-- C2 amended: after the single pass a slot array is dropped in its
entirety iff its first slot still holds the integer sentinel; surviving
arrays are returned unfiltered, remaining sentinels (`none`) included, so
the fixture yields exactly 3 volumes of lengths 4, 3, 2, each ending in an
undropped sentinel and attached to the metadata that preceded its
chunks. -/
theorem e2e_assembly_fixture_amended :
    OCT.E2E.read_oct_volume OCT.E2E.entriesC2 OCT.E2E.fetchC2 =
      some
        [⟨OCT.E2E.keyA,
          [some OCT.E2E.imgQ, some OCT.E2E.imgQ, some OCT.E2E.imgQ, none],
          some .R, some 7⟩,
         ⟨OCT.E2E.keyB, [some OCT.E2E.imgQ, some OCT.E2E.imgQ, none],
          some .L, some 7⟩,
         ⟨OCT.E2E.keyC, [some OCT.E2E.imgQ, none], some .R, some 7⟩] := by
  decide

namespace OCT

namespace E2E

/-- C3 counterexample fixture: key `(2,2,2)` is pre-scanned with maximum
slice-id 2 (slot array of length 2), but the chunk record found at the
queued offset carries slice-id 8, so the slot index `int(8/2) - 1 = 3`
falls outside the array. -/
def keyD : VolKey := ⟨2, 2, 2⟩

def entriesC3 : List SubEntry := [⟨0, 201, 60, keyD, 2⟩]

def fetchC3 : Nat → Nat → Chunk := fun start _ =>
  if start = 201 then .image keyD 8 1 1 1 [5] else .other

/-- C3 amended fixture: a patient chunk first (so `self.patient_id` is
set before any volume is built), then key `(1,2,3)` pre-scanned normally;
the last queued chunk carries key `(3,3,3)`, which was never seen in
pre-scan. -/
def keyF : VolKey := ⟨1, 2, 3⟩

def keyE : VolKey := ⟨3, 3, 3⟩

def entriesC3amended : List SubEntry :=
  [⟨0, 300, 60, keyF, 0⟩, ⟨0, 301, 60, keyF, 2⟩, ⟨0, 302, 60, keyF, 2⟩]

def fetchC3amended : Nat → Nat → Chunk := fun start _ =>
  if start = 300 then .patient 9
  else if start = 301 then .image keyF 2 1 1 1 [5]
  else if start = 302 then .image keyE 2 1 1 1 [5]
  else .other

/-- C7 counterexample fixture: the first queued chunk declares a 2-by-1
image but only one decoded sample (reshape mismatch, skipped with a
warning); the second carries an out-of-range slice index, whose
`IndexError` escapes to the caller. -/
def keyG : VolKey := ⟨4, 4, 4⟩

def entriesC7 : List SubEntry :=
  [⟨0, 401, 60, keyG, 2⟩, ⟨0, 402, 60, keyG, 2⟩]

def fetchC7 : Nat → Nat → Chunk := fun start _ =>
  if start = 401 then .image keyG 2 1 2 1 [5]
  else if start = 402 then .image keyG 8 1 1 1 [5]
  else .other

end E2E

end OCT

/-- C3 counterexample: a decoded pixel chunk whose key HAS a pre-sized
slot array but whose computed index `int(slice_id/2) - 1` falls outside it
is not appended to an overflow list — the slot assignment raises an
uncaught `IndexError` (modelled as `none`) and the chunk emerges in no
Volume at all. -/
theorem e2e_overflow_counterexample :
    OCT.E2E.read_oct_volume OCT.E2E.entriesC3 OCT.E2E.fetchC3 = none := by
  decide

/-- C3 amended: a decoded pixel chunk whose composite key has no pre-sized
slot array is appended (in arrival order) to the per-key overflow list
and, provided a patient-data chunk was decoded earlier (constructing any
volume reads the otherwise-uninitialized `self.patient_id`), emerges as an
additional returned Volume; but a chunk whose computed index falls outside
its key's slot array aborts the assembly with an `IndexError` instead of
overflowing.  On the amended fixture the unseen-key chunk yields exactly
one overflow volume holding exactly that image. -/
theorem e2e_overflow_amended :
    OCT.E2E.read_oct_volume OCT.E2E.entriesC3amended OCT.E2E.fetchC3amended =
      some
        [⟨OCT.E2E.keyF, [some OCT.E2E.imgQ, none], none, some 9⟩,
         ⟨OCT.E2E.keyE, [some OCT.E2E.imgQ], none, some 9⟩] := by
  decide

/-- C7 counterexample: it is not true that only header-level and
file-existence failures are surfaced to the caller — after a
reshape-mismatch chunk is duly skipped, a per-chunk out-of-range slot
index raises an `IndexError` that escapes `read_oct_volume`. -/
theorem e2e_error_propagation_counterexample :
    OCT.E2E.read_oct_volume OCT.E2E.entriesC7 OCT.E2E.fetchC7 = none := by
  decide

end

/-- C7 amended: a pixel chunk whose decoded sample count does not match
its declared width*height is skipped (after a logged warning), leaving the
state untouched and never aborting the processing of the remaining chunks;
however, not only header-level and file-existence failures are surfaced:
an out-of-range slot index raises an uncaught `IndexError` (see the
counterexample), and a pixel chunk declaring `width*height = 0` stops the
chunk loop. -/
theorem e2e_reshape_mismatch_skipped (s : OCT.E2E.AsmState)
    (rest : List OCT.E2E.Chunk) (key : OCT.E2E.VolKey) (slice_id : Int)
    (w h : Nat) (pixels : List Nat) (hc : h * w ≠ 0)
    (hm : pixels.length ≠ w * h) :
    OCT.E2E.runChunks s (.image key slice_id 1 w h pixels :: rest) =
      OCT.E2E.runChunks s rest := by
  have hstep : OCT.E2E.step s (.image key slice_id 1 w h pixels) = .ok s := by
    unfold OCT.E2E.step
    simp [hc, hm]
  rw [OCT.E2E.runChunks, hstep]

/-- Witness for C7's amended theorem: a 1-by-1 chunk with an empty sample
list is skipped. -/
theorem e2e_reshape_mismatch_skipped_witness :
    (1 : Nat) * 1 ≠ 0 ∧ ([] : List Nat).length ≠ 1 * 1 ∧
      OCT.E2E.runChunks ⟨none, none, [], [], []⟩
          [.image ⟨0, 0, 0⟩ 0 1 1 1 []] =
        OCT.E2E.runChunks ⟨none, none, [], [], []⟩ [] :=
  ⟨by decide, by decide,
    e2e_reshape_mismatch_skipped ⟨none, none, [], [], []⟩ [] ⟨0, 0, 0⟩ 0 1 1 []
      (by decide) (by decide)⟩

namespace OCT

namespace E2E

/-- The fields of a 52-byte main-directory record used by the first-pass
walk (e2e.py lines 37-45). -/
structure MainDirRecord where
  num_entries : Nat
  current : Nat
  prev : Nat

/-- The `prev` pointer of the main-directory record parsed at offset `o`
of the container (`directory_chunk.prev` after `f.seek(o); parse`). -/
def prevAt (file : Nat → MainDirRecord) (o : Nat) : Nat :=
  (file o).prev

/-- First-pass directory walk (e2e.py lines 127-136):
`while current != 0: directory_stack.append(current); current = parse(file
at current).prev`.  The source loop is unbounded; `fuel` bounds the
recursion in the embedding and `none` means the fuel ran out before the
chain reached 0. -/
def walkDirectories (file : Nat → MainDirRecord) :
    Nat → Nat → Option (List Nat)
  | 0, current => if current = 0 then some [] else none
  | fuel + 1, current =>
    if current = 0 then some []
    else (walkDirectories file fuel (prevAt file current)).map (current :: ·)

lemma walkDirectories_spec (file : Nat → MainDirRecord) :
    ∀ n c : Nat, (prevAt file)^[n] c = 0 →
      ∃ L : List Nat,
        walkDirectories file n c = some L ∧
        (∀ m, n ≤ m → walkDirectories file m c = some L) ∧
        L.length ≤ n ∧
        (∀ i, i < L.length →
          L.get? i = some ((prevAt file)^[i] c) ∧ (prevAt file)^[i] c ≠ 0) ∧
        (prevAt file)^[L.length] c = 0 := by
  intro n
  induction n with
  | zero =>
    intro c h
    simp only [Function.iterate_zero, id_eq] at h
    refine ⟨[], by simp [walkDirectories, h], ?_, by simp, ?_, by simpa⟩
    · intro m _
      cases m with
      | zero => simp [walkDirectories, h]
      | succ m => simp [walkDirectories, h]
    · intro i hi
      simp at hi
  | succ n ih =>
    intro c h
    by_cases hc : c = 0
    · subst hc
      refine ⟨[], by simp [walkDirectories], ?_, by simp, ?_, by simp⟩
      · intro m _
        cases m with
        | zero => simp [walkDirectories]
        | succ m => simp [walkDirectories]
      · intro i hi
        simp at hi
    · have h' : (prevAt file)^[n] (prevAt file c) = 0 := by
        rwa [← Function.iterate_succ_apply]
      obtain ⟨L', hw, hall, hlen, hget, hterm⟩ := ih (prevAt file c) h'
      refine ⟨c :: L', ?_, ?_, ?_, ?_, ?_⟩
      · simp [walkDirectories, hc, hw]
      · intro m hm
        obtain ⟨m', rfl⟩ : ∃ m', m = m' + 1 := ⟨m - 1, by omega⟩
        have hm' : n ≤ m' := by omega
        simp [walkDirectories, hc, hall m' hm']
      · simp only [List.length_cons]
        omega
      · intro i hi
        cases i with
        | zero =>
          refine ⟨by simp, by simpa using hc⟩
        | succ j =>
          have hj : j < L'.length := by
            simpa using hi
          obtain ⟨hg, hne⟩ := hget j hj
          refine ⟨?_, ?_⟩
          · rw [Function.iterate_succ_apply]
            simpa using hg
          · rw [Function.iterate_succ_apply]
            exact hne
      · simp only [List.length_cons]
        rw [Function.iterate_succ_apply]
        exact hterm

end E2E

end OCT

/-- C8: for any container whose main-directory `prev` chain starting at
the header's `current` pointer reaches 0 after finitely many steps, the
first-pass walk terminates and records exactly the offsets of the chain in
chain order (entry `i` is the `i`-th iterate, every recorded offset is
nonzero, the walk is unchanged by extra fuel), and the last recorded
offset is the node whose `prev` pointer is 0. -/
theorem e2e_directory_walk (file : Nat → OCT.E2E.MainDirRecord) (c n : Nat)
    (h : (OCT.E2E.prevAt file)^[n] c = 0) :
    ∃ L : List Nat,
      OCT.E2E.walkDirectories file n c = some L ∧
      (∀ m, n ≤ m → OCT.E2E.walkDirectories file m c = some L) ∧
      (∀ i, i < L.length →
        L.get? i = some ((OCT.E2E.prevAt file)^[i] c) ∧
          (OCT.E2E.prevAt file)^[i] c ≠ 0) ∧
      (OCT.E2E.prevAt file)^[L.length] c = 0 ∧
      (∀ last, L.getLast? = some last → OCT.E2E.prevAt file last = 0) := by
  obtain ⟨L, hw, hall, _, hget, hterm⟩ := OCT.E2E.walkDirectories_spec file n c h
  refine ⟨L, hw, hall, hget, hterm, ?_⟩
  intro last hlast
  have hne : L ≠ [] := by
    intro hnil
    rw [hnil] at hlast
    simp at hlast
  have hpos : 0 < L.length := List.length_pos.mpr hne
  have hidx : L.length - 1 < L.length := by omega
  have hgl : L.getLast? = L.get? (L.length - 1) := List.getLast?_eq_get? L
  obtain ⟨hg, _⟩ := hget (L.length - 1) hidx
  rw [hgl, hg] at hlast
  have hlast' : last = (OCT.E2E.prevAt file)^[L.length - 1] c := by
    exact (Option.some.injEq _ _).mp hlast |>.symm
  have h1 : (OCT.E2E.prevAt file)^[(L.length - 1) + 1] c =
      OCT.E2E.prevAt file ((OCT.E2E.prevAt file)^[L.length - 1] c) :=
    Function.iterate_succ_apply' _ _ _
  have h2 : (L.length - 1) + 1 = L.length := by omega
  rw [h2] at h1
  rw [hlast', ← h1]
  exact hterm

namespace OCT

namespace E2E

/-- A constructed container whose main-directory `prev` chain is the
3-node list 10 → 20 → 30 → 0. -/
def fileChain3 : Nat → MainDirRecord := fun o =>
  if o = 10 then ⟨0, 0, 20⟩
  else if o = 20 then ⟨0, 0, 30⟩
  else if o = 30 then ⟨0, 0, 0⟩
  else ⟨0, 0, 0⟩

end E2E

end OCT

/-- Witness for C8: a constructed 3-node chain 10 → 20 → 30 → 0 starting
at `current = 10`. -/
theorem e2e_directory_walk_witness :
    ∃ L : List Nat,
      OCT.E2E.walkDirectories OCT.E2E.fileChain3 3 10 = some L ∧
      (∀ m, 3 ≤ m → OCT.E2E.walkDirectories OCT.E2E.fileChain3 m 10 = some L) ∧
      (∀ i, i < L.length →
        L.get? i = some ((OCT.E2E.prevAt OCT.E2E.fileChain3)^[i] 10) ∧
          (OCT.E2E.prevAt OCT.E2E.fileChain3)^[i] 10 ≠ 0) ∧
      (OCT.E2E.prevAt OCT.E2E.fileChain3)^[L.length] 10 = 0 ∧
      (∀ last, L.getLast? = some last →
        OCT.E2E.prevAt OCT.E2E.fileChain3 last = 0) :=
  e2e_directory_walk OCT.E2E.fileChain3 10 3 (by decide)

namespace OCT

namespace FDS

/-- `np.fromstring(b, dtype=np.uint32)[0]`: little-endian read of exactly
four bytes. -/
def le32 : List Nat → Nat
  | [a, b, c, d] => a + 256 * b + 65536 * c + 16777216 * d
  | _ => 0

/-- The scanning loop of `FDS.get_list_of_file_chunks` (fds.py lines
47-57) over the raw byte stream: at `pos` read one byte
`chunk_name_size`; 0 ends the catalog; otherwise the tag is the next
`chunk_name_size` bytes, the chunk size the 4-byte little-endian word
after them, the recorded location is `f.tell()` after that read, and the
loop resumes past `size` skipped bytes.  `chunk_dict[chunk_name] =
[chunk_location, chunk_size]` is a plain dict assignment (`E2E.dictSet`
has the same insertion-ordered update semantics).  A short read at end of
stream raises (`none`); `fuel` bounds the unbounded while loop. -/
def scanChunks (bytes : List Nat) :
    Nat → Nat → List (List Nat × Nat × Nat) →
      Option (List (List Nat × Nat × Nat))
  | 0, _, _ => none
  | fuel + 1, pos, acc =>
    match bytes.get? pos with
    | none => none
    | some len =>
      if len = 0 then some acc
      else if pos + 1 + len + 4 ≤ bytes.length then
        let chunk_name := (bytes.drop (pos + 1)).take len
        let chunk_size := le32 ((bytes.drop (pos + 1 + len)).take 4)
        let chunk_location := pos + 1 + len + 4
        scanChunks bytes fuel (chunk_location + chunk_size)
          (E2E.dictSet acc chunk_name (chunk_location, chunk_size))
      else none

/-- `FDS.get_list_of_file_chunks` (fds.py lines 33-63): parse the 15-byte
header (a short file makes the header parse raise), then scan from
position 15.  One fuel unit per loop iteration is enough because each
iteration advances the position by at least five bytes. -/
def get_list_of_file_chunks (bytes : List Nat) :
    Option (List (List Nat × Nat × Nat)) :=
  if 15 ≤ bytes.length then scanChunks bytes (bytes.length + 1) 15 []
  else none

/-- C9 counterexample stream: a 15-byte header, then the same one-byte tag
`[65]` twice, each chunk with a 1-byte payload, then the terminating 0. -/
def streamC9 : List Nat :=
  List.replicate 15 0 ++
    [1, 65, 1, 0, 0, 0, 9] ++ [1, 65, 1, 0, 0, 0, 9] ++ [0]

/-- Structured description of a chunk for the encode/scan theorem: tag
bytes and payload bytes. -/
def le32enc (n : Nat) : List Nat :=
  [n % 256, n / 256 % 256, n / 65536 % 256, n / 16777216 % 256]

/-- Serialize one chunk: 1-byte tag length, tag, 4-byte little-endian
payload size, payload. -/
def encodeChunk (c : List Nat × List Nat) : List Nat :=
  [c.1.length] ++ c.1 ++ le32enc c.2.length ++ c.2

def encodeChunks : List (List Nat × List Nat) → List Nat
  | [] => []
  | c :: rest => encodeChunk c ++ encodeChunks rest

/-- The catalog the scan is expected to build from position `pos`:
per chunk one dict assignment of `(location, size)`, so a repeated tag
keeps only its last occurrence. -/
def catalogOfChunks :
    Nat → List (List Nat × List Nat) → List (List Nat × Nat × Nat) →
      List (List Nat × Nat × Nat)
  | _, [], acc => acc
  | pos, c :: rest, acc =>
    let loc := pos + 1 + c.1.length + 4
    catalogOfChunks (loc + c.2.length) rest
      (E2E.dictSet acc c.1 (loc, c.2.length))

lemma le32_le32enc (n : Nat) (h : n < 4294967296) : le32 (le32enc n) = n := by
  show n % 256 + 256 * (n / 256 % 256) + 65536 * (n / 65536 % 256) +
      16777216 * (n / 16777216 % 256) = n
  omega

end FDS

end OCT

namespace OCT

namespace FDS

lemma read_byte (front : List Nat) (b : Nat) (tail : List Nat) :
    (front ++ b :: tail).get? front.length = some b := by
  rw [List.get?_eq_getElem?, List.getElem?_append_right (Nat.le_refl _)]
  simp

lemma read_block (front block tail : List Nat) :
    ((front ++ (block ++ tail)).drop front.length).take block.length = block := by
  rw [List.drop_left, List.take_left]

lemma scanChunks_encode :
    ∀ (chunks : List (List Nat × List Nat)) (p : List Nat)
      (acc : List (List Nat × Nat × Nat)) (fuel : Nat),
      chunks.length + 1 ≤ fuel →
      (∀ c ∈ chunks, 1 ≤ c.1.length ∧ c.2.length < 4294967296) →
      scanChunks (p ++ encodeChunks chunks ++ [0]) fuel p.length acc =
        some (catalogOfChunks p.length chunks acc) := by
  intro chunks
  induction chunks with
  | nil =>
    intro p acc fuel hfuel _
    obtain ⟨f, rfl⟩ : ∃ f, fuel = f + 1 := ⟨fuel - 1, by omega⟩
    have hS : p ++ encodeChunks [] ++ [0] = p ++ (0 : Nat) :: [] := by
      simp [encodeChunks]
    rw [scanChunks, hS, read_byte]
    simp [catalogOfChunks]
  | cons c rest ih =>
    intro p acc fuel hfuel hvalid
    obtain ⟨f, rfl⟩ : ∃ f, fuel = f + 1 := ⟨fuel - 1, by omega⟩
    obtain ⟨hlen1, hlen2⟩ := hvalid c (List.mem_cons_self _ _)
    have hvrest : ∀ d ∈ rest, 1 ≤ d.1.length ∧ d.2.length < 4294967296 :=
      fun d hd => hvalid d (List.mem_cons_of_mem _ hd)
    have hS1 : p ++ encodeChunks (c :: rest) ++ [0] =
        p ++ c.1.length ::
          (c.1 ++ (le32enc c.2.length ++ (c.2 ++ (encodeChunks rest ++ [0])))) := by
      simp [encodeChunks, encodeChunk]
    have hS2 : p ++ encodeChunks (c :: rest) ++ [0] =
        (p ++ [c.1.length]) ++
          (c.1 ++ (le32enc c.2.length ++ (c.2 ++ (encodeChunks rest ++ [0])))) := by
      simp [encodeChunks, encodeChunk]
    have hS3 : p ++ encodeChunks (c :: rest) ++ [0] =
        ((p ++ [c.1.length]) ++ c.1) ++
          (le32enc c.2.length ++ (c.2 ++ (encodeChunks rest ++ [0]))) := by
      simp [encodeChunks, encodeChunk]
    have hS4 : p ++ encodeChunks (c :: rest) ++ [0] =
        (p ++ encodeChunk c) ++ encodeChunks rest ++ [0] := by
      simp [encodeChunks, encodeChunk]
    have hget : (p ++ encodeChunks (c :: rest) ++ [0]).get? p.length =
        some c.1.length := by
      rw [hS1, read_byte]
    have hlenS : (p ++ encodeChunks (c :: rest) ++ [0]).length =
        p.length + 1 + c.1.length + 4 + c.2.length +
          (encodeChunks rest).length + 1 := by
      simp [encodeChunks, encodeChunk, le32enc]
      omega
    have hbound : p.length + 1 + c.1.length + 4 ≤
        (p ++ encodeChunks (c :: rest) ++ [0]).length := by
      rw [hlenS]; omega
    have htag : ((p ++ encodeChunks (c :: rest) ++ [0]).drop (p.length + 1)).take
        c.1.length = c.1 := by
      have h21 : (p ++ [c.1.length]).length = p.length + 1 := by simp
      rw [hS2, ← h21, read_block]
    have hsize : ((p ++ encodeChunks (c :: rest) ++ [0]).drop
        (p.length + 1 + c.1.length)).take 4 = le32enc c.2.length := by
      have h31 : ((p ++ [c.1.length]) ++ c.1).length = p.length + 1 + c.1.length := by
        simp
        omega
      have h32 : (4 : Nat) = (le32enc c.2.length).length := by simp [le32enc]
      rw [hS3, ← h31, h32, read_block]
    rw [scanChunks, hget]
    have hne : ¬ c.1.length = 0 := by omega
    simp only [hne, if_false, hbound, if_true, htag, hsize,
      le32_le32enc c.2.length hlen2]
    have hpos : p.length + 1 + c.1.length + 4 + c.2.length =
        (p ++ encodeChunk c).length := by
      simp [encodeChunk, le32enc]
      omega
    simp only [catalogOfChunks]
    have hfuel' : rest.length + 1 ≤ f := by
      simp only [List.length_cons] at hfuel
      omega
    have := ih (p ++ encodeChunk c)
      (E2E.dictSet acc c.1 (p.length + 1 + c.1.length + 4, c.2.length)) f
      hfuel' hvrest
    rw [← hS4] at this
    rw [hpos]
    exact this

end FDS

end OCT

namespace OCT

namespace FDS

lemma length_le_encodeChunks (chunks : List (List Nat × List Nat)) :
    chunks.length ≤ (encodeChunks chunks).length := by
  induction chunks with
  | nil => simp [encodeChunks]
  | cons c rest ih =>
    simp only [encodeChunks, List.length_append, List.length_cons, encodeChunk,
      le32enc]
    simp at ih ⊢
    omega

end FDS

end OCT

/-- C9 counterexample: scanning a container holding the same tag `[65]`
twice does NOT leave both `(offset, size)` pairs in the catalog — the
second dict assignment overwrites the first, so only `(28, 1)` remains and
the first occurrence's pair `(21, 1)` is absent. -/
theorem fds_repeated_tag_counterexample :
    OCT.FDS.get_list_of_file_chunks OCT.FDS.streamC9 =
        some [([65], 28, 1)] ∧
      ∀ l, OCT.FDS.get_list_of_file_chunks OCT.FDS.streamC9 = some l →
        ([65], 21, 1) ∉ l := by
  have h1 : OCT.FDS.get_list_of_file_chunks OCT.FDS.streamC9 =
      some [([65], 28, 1)] := by decide
  refine ⟨h1, ?_⟩
  intro l hl
  rw [h1] at hl
  have : ([([65], 28, 1)] : List (List Nat × Nat × Nat)) = l :=
    Option.some.inj hl
  rw [← this]
  decide

/-- C9 amended: the sequential tagged-chunk scan records one catalog entry
per tag via plain dict assignment `tag ↦ (offset, size)` — repeated tags
overwrite, keeping only the last occurrence's pair, rather than
accumulating all occurrences as a list.  For every well-formed stream
(15-byte header, encoded chunks, terminating 0-length byte, tag lengths in
1..255, payload sizes below 2^32) the scan succeeds and returns exactly
the left-to-right fold of those dict assignments with the correctly
computed offsets. -/
theorem fds_catalog_scan_amended (header : List Nat)
    (chunks : List (List Nat × List Nat)) (hh : header.length = 15)
    (hv : ∀ c ∈ chunks,
      1 ≤ c.1.length ∧ c.1.length ≤ 255 ∧ c.2.length < 4294967296) :
    OCT.FDS.get_list_of_file_chunks (header ++ OCT.FDS.encodeChunks chunks ++ [0]) =
      some (OCT.FDS.catalogOfChunks 15 chunks []) := by
  unfold OCT.FDS.get_list_of_file_chunks
  have hlen : 15 ≤ (header ++ OCT.FDS.encodeChunks chunks ++ [0]).length := by
    simp [hh]
  rw [if_pos hlen]
  have hfuel : chunks.length + 1 ≤
      (header ++ OCT.FDS.encodeChunks chunks ++ [0]).length + 1 := by
    have := OCT.FDS.length_le_encodeChunks chunks
    simp only [List.length_append, List.length_cons]
    omega
  have hv' : ∀ c ∈ chunks, 1 ≤ c.1.length ∧ c.2.length < 4294967296 :=
    fun c hc => ⟨(hv c hc).1, (hv c hc).2.2⟩
  have h := OCT.FDS.scanChunks_encode chunks header []
    ((header ++ OCT.FDS.encodeChunks chunks ++ [0]).length + 1) hfuel hv'
  rw [hh] at h
  exact h

/-- Witness for C9's amended theorem: a 15-byte header and the tag `[66]`
twice (1-byte payloads). -/
theorem fds_catalog_scan_amended_witness :
    OCT.FDS.get_list_of_file_chunks
        (List.replicate 15 0 ++
          OCT.FDS.encodeChunks [([66], [7]), ([66], [8])] ++ [0]) =
      some (OCT.FDS.catalogOfChunks 15 [([66], [7]), ([66], [8])] []) :=
  fds_catalog_scan_amended (List.replicate 15 0) [([66], [7]), ([66], [8])]
    (by decide) (by decide)

namespace OCT

namespace BOCT

/-- The three scan geometries of
`bioptigen_scan_type_map = {0: linear, 1: rect, 3: rad}` (boct.py lines
54-56). -/
inductive ScanType where
  | linear
  | rect
  | rad
deriving DecidableEq

/-- `self.bioptigen_scan_type_map[self.header.scantype.value]`; a scantype
outside the map raises `KeyError` (`none`). -/
def bioptigen_scan_type_map (n : Nat) : Option ScanType :=
  if n = 0 then some .linear
  else if n = 1 then some .rect
  else if n = 3 then some .rad
  else none

/-- The header fields `BOCT.read_oct_volume` reads (boct.py lines
130-134): `framecount` is `header.framecount.value` (total frames in the
on-disk stack), `frames` is `header.frames.value` (frames per 3-D volume),
`scans` is `header.scans.value` (repeats per position), `scantype` the raw
scan-type integer. -/
structure BoctHeader where
  framecount : Nat
  frames : Nat
  scans : Nat
  scantype : Nat

/-- The logical 4-D shape computed by `read_oct_volume` (boct.py lines
129-159): the scan type is looked up (a bad value raises), then
`vdim3 = int(totalframes / framecount)` (exact float division of the
header counts followed by `int`, i.e. floor), `vdim4 = int(framecount)`,
and `volume_shape = (vdim4, vdim3, Ascans, depth)` with the B-scan
geometry `geom = (Ascans, depth)` taken from the first frame.  `frames = 0`
raises `ZeroDivisionError` (`none`). -/
def volume_shape (h : BoctHeader) (geom : Nat × Nat) :
    Option (Nat × Nat × Nat × Nat) :=
  match bioptigen_scan_type_map h.scantype with
  | none => none
  | some _ =>
    if h.frames = 0 then none
    else some (h.frames, h.framecount / h.frames, geom.1, geom.2)

end BOCT

end OCT

/-- C6 counterexample: with header `frames = 5, scans = 3`, 15 frames on
disk and `scantype = linear`, the computed shape is `(5, 3, Ascans,
depth)` — the repeat axis is NOT folded into the frame axis — whereas the
claim asserts `(15, 1, Ascans, depth)`. -/
theorem boct_linear_fold_counterexample :
    OCT.BOCT.volume_shape ⟨15, 5, 3, 0⟩ (100, 200) = some (5, 3, 100, 200) ∧
      some ((5 : Nat), (3 : Nat), (100 : Nat), (200 : Nat)) ≠
        some ((15 : Nat), (1 : Nat), (100 : Nat), (200 : Nat)) := by
  constructor
  · decide
  · decide

/-- C6 amended: the shape computation never folds the repeat axis — the
looked-up scan type (and the `scans` header field) is ignored, and every
valid scan type yields `(frames, totalframes / frames, Ascans, depth)`;
in particular `frames = 5, scans = 3` with 15 frames on disk yields
`(5, 3, Ascans, depth)` for linear and rectangular alike. -/
theorem boct_shape_ignores_scantype (total frames scans scans2 : Nat)
    (geom : Nat × Nat) :
    OCT.BOCT.volume_shape ⟨total, frames, scans, 0⟩ geom =
        OCT.BOCT.volume_shape ⟨total, frames, scans2, 1⟩ geom ∧
      OCT.BOCT.volume_shape ⟨15, 5, scans, 0⟩ geom =
        some (5, 3, geom.1, geom.2) := by
  constructor
  · unfold OCT.BOCT.volume_shape OCT.BOCT.bioptigen_scan_type_map
    simp
  · unfold OCT.BOCT.volume_shape OCT.BOCT.bioptigen_scan_type_map
    norm_num

namespace OCT

namespace E2E

/-- The post-decode intensity transform applied by `read_oct_volume`
(e2e.py line 263), pointwise on every decoded pixel:
`image = 256 * pow(image, 1.0 / 2.4)`. -/
noncomputable def legacy_intensity (v : ℝ) : ℝ :=
  256 * v ^ ((1 : ℝ) / 2.4)

/-- The intensity that ends up stored for a raw 16-bit sample `x`: LUT
decode (`LUT[x]`) followed by the applied transform. -/
noncomputable def storedIntensity (x : Nat) : ℝ :=
  legacy_intensity (((makeLUT[x]?).getD 0 : ℚ) : ℝ)

/-- `np.finfo(np.float32).max`: the largest finite 32-bit float,
`(2 - 2^-23) * 2^127`. -/
def maxFloat32 : ℚ :=
  (2 - 2 ^ (-(23 : ℤ))) * 2 ^ (127 : ℕ)

/-- The spec's *current* transform, stated from the spec's words for
comparison with the code (the code has no such branch): for `v ≤ 1`,
`(ln(v + 2.44e-4) + 8.3) / 8.285`; the sentinel equal to the maximum
32-bit float maps to 0; the result is clamped to `[0, 1]`. -/
noncomputable def specCurrentIntensity (v : ℝ) : ℝ :=
  min 1 (max 0
    (if v = ((maxFloat32 : ℚ) : ℝ) then 0
     else if v ≤ 1 then (Real.log (v + 2.44e-4) + 8.3) / 8.285
     else v))

lemma one_lt_maxFloat32 : (1 : ℚ) < maxFloat32 := by
  unfold maxFloat32
  have h1 : (2 : ℚ) ^ (-(23 : ℤ)) ≤ 1 :=
    zpow_le_one_of_nonpos₀ (by norm_num) (by norm_num)
  have h2 : (1 : ℚ) ≤ 2 - 2 ^ (-(23 : ℤ)) := by linarith
  have h3 : (2 : ℚ) ≤ 2 ^ (127 : ℕ) := by
    calc (2 : ℚ) = 2 ^ (1 : ℕ) := by norm_num
      _ ≤ 2 ^ (127 : ℕ) := by
          exact pow_le_pow_right₀ (by norm_num) (by norm_num)
  calc (1 : ℚ) < 2 := by norm_num
    _ = 1 * 2 := by ring
    _ ≤ (2 - 2 ^ (-(23 : ℤ))) * 2 ^ (127 : ℕ) := by
        exact mul_le_mul h2 h3 (by norm_num) (by linarith)

end E2E

end OCT

/-- C5 counterexample: the code applies a single unconditional post-decode
transform; at decoded value 1 it yields `256 * 1^(1/2.4) = 256`, while the
claimed caller-selectable *current* transform yields 1, so the applied
transform is not the current one (and no selection parameter exists in
`read_oct_volume`). -/
theorem e2e_intensity_transform_counterexample :
    OCT.E2E.legacy_intensity 1 = 256 ∧
      OCT.E2E.specCurrentIntensity 1 = 1 ∧
      OCT.E2E.legacy_intensity 1 ≠ OCT.E2E.specCurrentIntensity 1 := by
  have hleg : OCT.E2E.legacy_intensity 1 = 256 := by
    unfold OCT.E2E.legacy_intensity
    rw [Real.one_rpow]
    norm_num
  have hne1 : (1 : ℝ) ≠ ((OCT.E2E.maxFloat32 : ℚ) : ℝ) := by
    have h := OCT.E2E.one_lt_maxFloat32
    have : (1 : ℝ) < ((OCT.E2E.maxFloat32 : ℚ) : ℝ) := by
      exact_mod_cast h
    exact ne_of_lt this
  have hcur : OCT.E2E.specCurrentIntensity 1 = 1 := by
    unfold OCT.E2E.specCurrentIntensity
    rw [if_neg hne1, if_pos (le_refl (1 : ℝ))]
    have hlog : 0 ≤ Real.log (1 + 2.44e-4) := by
      apply Real.log_nonneg
      norm_num
    have hge : (1 : ℝ) ≤ (Real.log (1 + 2.44e-4) + 8.3) / 8.285 := by
      rw [le_div_iff (by norm_num : (0 : ℝ) < 8.285)]
      linarith
    rw [max_eq_right (le_trans zero_le_one hge), min_eq_left hge]
  refine ⟨hleg, hcur, ?_⟩
  rw [hleg, hcur]
  norm_num

/-- C5 amended: exactly one post-decode intensity transform exists and it
is applied unconditionally — the legacy `256 * value^(1/2.4)`; there is no
caller-selectable log-based *current* transform.  The stored intensity of
every raw 16-bit sample is the legacy transform of its LUT-decoded
value. -/
theorem e2e_intensity_transform_amended (x : Nat) (hx : x < 65536) :
    OCT.E2E.storedIntensity x =
      256 * ((OCT.E2E.uint16_to_ufloat16 x : ℚ) : ℝ) ^ ((1 : ℝ) / 2.4) := by
  unfold OCT.E2E.storedIntensity OCT.E2E.legacy_intensity
  rw [OCT.E2E.makeLUT_get x hx]
  rfl

/-- Witness for C5's amended theorem at the raw sample `x = 0`. -/
theorem e2e_intensity_transform_amended_witness :
    OCT.E2E.storedIntensity 0 =
      256 * ((OCT.E2E.uint16_to_ufloat16 0 : ℚ) : ℝ) ^ ((1 : ℝ) / 2.4) :=
  e2e_intensity_transform_amended 0 (by norm_num)
